import Mathlib

set_option maxRecDepth 8000

/-!
Shallow embedding of the receiver state machine of the `sftp` package
(`src/receiver.go`) together with the session construction performed by
`Server.handlePacket` (the listener source).

Network input is modelled as a list of read events (each `ReadFromUDP`
outcome in order); network output is a list of effects (datagram sends
and socket closes).  Machine integers (`uint16` block counters, ports)
are `Nat` with explicit `% 65536` where the code increments a `uint16`.
The packet codec (`pack.go`) is not part of the supplied sources, so
incoming datagrams are modelled post-parse (`Dgram`) and outgoing
datagrams as the abstract content of the send buffer prefix that is
transmitted (`Wire`); wire constants are modelled from the spec.
-/

/-- Modelled from the spec: opcode of an ACK packet (the packet codec with the
opcode constants is not among the supplied sources; the value is from the
wire-format table of the spec). -/
def opACK : Nat := 4

/-- Modelled from the spec: opcode of an ERROR packet. -/
def opERROR : Nat := 5

/-- Modelled from the spec: opcode of an OACK packet. -/
def opOACK : Nat := 6

/-- Modelled from the spec: default datagram length, a 4-byte header plus a
512-byte payload. -/
def datagramLength : Nat := 516

/-- Modelled from the spec: the smallest negotiable block size (the constant
`defaultBlockSize` referenced by `setBlockSize` is not among the supplied
sources; the spec gives the accepted interval as 512..65464). -/
def defaultBlockSize : Int := 512

/-- Modelled from the spec: the largest negotiable block size. -/
def maxBlockSize : Int := 65464

/-- Value of a non-empty all-digit character list, as `strconv` computes it. -/
def digitsVal (cs : List Char) : Option Nat :=
  if cs = [] then none
  else if cs.all Char.isDigit then
    some (cs.foldl (fun a c => a * 10 + (c.toNat - 48)) 0)
  else none

/-- Model of `strconv.Atoi`: an optional sign followed by decimal digits.
Go additionally fails on 64-bit overflow; such strings denote values far
outside the block-size interval, so `setBlockSize` rejects them either way. -/
def atoi (s : String) : Option Int :=
  match s.data with
  | '+' :: cs => (digitsVal cs).map (fun n => (n : Int))
  | '-' :: cs => (digitsVal cs).map (fun n => -(n : Int))
  | cs => (digitsVal cs).map (fun n => (n : Int))

/-- Option maps, post-parse: association list from option name to value. -/
abbrev Opts := List (String × String)

/-- The error values the receiver code distinguishes.  `net` stands for any
`net.Error` (a read deadline expiry, or an operation on a closed socket);
only these are retried by `receiveWithRetry`. -/
inductive GoErr where
  | net
  | parse
  | oackBad
  | peer (code : Nat) (msg : String)
  | atoiErr (s : String)
  | blkSmall (n : Int)
  | blkLarge (n : Int)
  | sinkErr (msg : String)
  | dallyFail
  deriving DecidableEq, Repr

/-- The `Error()` string of a modelled error, used by `abort` when packing the
outgoing ERROR packet (exact `fmt`/`strconv` texts abbreviated as labels). -/
def errMsg : GoErr → String
  | GoErr.net => "i/o timeout"
  | GoErr.parse => "malformed packet"
  | GoErr.oackBad => "bad OACK"
  | GoErr.peer c m => "code: " ++ toString c ++ ", message: " ++ m
  | GoErr.atoiErr s => "invalid syntax: " ++ s
  | GoErr.blkSmall n => "blksize too small: " ++ toString n
  | GoErr.blkLarge n => "blksize tool large: " ++ toString n
  | GoErr.sinkErr m => m
  | GoErr.dallyFail => "dallying termination failed"

/-- An incoming datagram after `parsePacket`: the cases the receiver's switch
distinguishes.  `other` covers parse-valid kinds without a case (ACK, RRQ,
WRQ); `malformed` is a `parsePacket` failure; an OACK carries `none` when
`unpackOACK` fails on it. -/
inductive Dgram where
  | data (blk : Nat) (paylen : Nat)
  | oack (res : Option Opts)
  | perror (code : Nat) (msg : String)
  | other
  | malformed
  deriving DecidableEq, Repr

/-- One `ReadFromUDP` outcome: either a deadline expiry (a `net.Error`) or a
datagram from source address `ip`/`port`. -/
inductive NetEvent where
  | timeout
  | dgram (ip port : Nat) (d : Dgram)
  deriving DecidableEq, Repr

/-- The content of the send-buffer prefix being transmitted: a 4-byte send
carries the opcode and block fields (`ackPkt`), a full send after `packOACK`
carries the accepted options, a send after `packERROR` carries code and
message. -/
inductive Wire where
  | ackPkt (op blk : Nat)
  | oackPkt (opts : Opts)
  | errPkt (code : Nat) (msg : String)
  deriving DecidableEq, Repr

/-- An observable socket operation of the session. -/
inductive Effect where
  | send (dstIP dstPort : Nat) (w : Wire)
  | closeConn
  deriving DecidableEq, Repr

/-- The `receiver` struct of `src/receiver.go`.  The byte buffers are
abstracted: `sendOp`/`sendBlk` are the two `uint16` fields of the send buffer,
`recvCap` is `len(r.receive)`.  `connOpen` records whether the socket has been
closed, `connNil` whether the `conn` field was cleared (only `abort` clears
it).  The `timeout` duration is not modelled (the model is untimed: a deadline
expiry is an input event). -/
structure receiver where
  sendOp : Nat
  sendBlk : Nat
  recvCap : Nat
  peerIP : Nat
  peerPort : Nat
  localIP : Option Nat
  connOpen : Bool
  connNil : Bool
  tid : Nat
  block : Nat
  retries : Nat
  l : Nat
  dally : Bool
  autoTerm : Bool
  mode : String
  opts : Option Opts
  deriving DecidableEq, Repr

/-- Result of a `receiveDatagram`/`receiveWithRetry` round-trip: byte count,
final state, error (`none` is Go's nil), emitted effects, unread events. -/
structure RDResult where
  n : Nat
  st : receiver
  res : Option GoErr
  effs : List Effect
  rest : List NetEvent
  deriving DecidableEq, Repr

/-- Result of `terminate` or `sendOptions`. -/
structure TermResult where
  st : receiver
  err : Option GoErr
  effs : List Effect
  rest : List NetEvent
  deriving DecidableEq, Repr

/-- `receiver.abort`: pack `ERROR(1, err.Error())` into the send buffer,
transmit it to the peer, and (deferred) close the socket and clear the conn
field.  A no-op when the conn field is already nil; the send is lost when the
socket is already closed (`WriteToUDP` fails) but `Close` is still called. -/
def receiver.abort (r : receiver) (e : GoErr) : receiver × List Effect :=
  if r.connNil then (r, [])
  else
    let sends := if r.connOpen then
        [Effect.send r.peerIP r.peerPort (Wire.errPkt 1 (errMsg e))]
      else []
    ({ r with sendOp := opERROR, sendBlk := 1, connOpen := false, connNil := true },
     sends ++ [Effect.closeConn])

/-- `receiver.setBlockSize`: parse the value, reject it outside
`defaultBlockSize..maxBlockSize`, otherwise reallocate the receive buffer to
`n+4` bytes. -/
def receiver.setBlockSize (r : receiver) (blksize : String) : Except GoErr receiver :=
  match atoi blksize with
  | none => Except.error (GoErr.atoiErr blksize)
  | some n =>
    if n < defaultBlockSize then Except.error (GoErr.blkSmall n)
    else if n > maxBlockSize then Except.error (GoErr.blkLarge n)
    else Except.ok { r with recvCap := n.toNat + 4 }

/-- The option loop in `receiveDatagram`'s OACK case: apply `setBlockSize` for
a `blksize` entry, ignoring its error; other entries are untouched. -/
def receiver.applyOackOpts : receiver → Opts → receiver
  | r, [] => r
  | r, (name, value) :: rest =>
    if name = "blksize" then
      match r.setBlockSize value with
      | Except.ok r1 => receiver.applyOackOpts r1 rest
      | Except.error _ => receiver.applyOackOpts r rest
    else receiver.applyOackOpts r rest

/-- The read loop inside `receiver.receiveDatagram`: repeatedly read, drop
datagrams failing the source filter, fail on a parse error, set `tid` to the
source port, and dispatch on the packet kind.  An exhausted event list stands
for a read deadline expiry with no further traffic. -/
def receiver.readLoop (r : receiver) : List NetEvent → RDResult
  | [] => ⟨0, r, some GoErr.net, [], []⟩
  | NetEvent.timeout :: rest => ⟨0, r, some GoErr.net, [], rest⟩
  | NetEvent.dgram ip port d :: rest =>
    if ip ≠ r.peerIP ∨ (r.tid ≠ 0 ∧ port ≠ r.tid) then
      receiver.readLoop r rest
    else
      match d with
      | Dgram.malformed => ⟨0, r, some GoErr.parse, [], rest⟩
      | Dgram.data blk paylen =>
        let r1 := { r with tid := port }
        if blk = r1.block then ⟨min (4 + paylen) r1.recvCap, r1, none, [], rest⟩
        else receiver.readLoop r1 rest
      | Dgram.oack res =>
        let r1 := { r with tid := port }
        if r1.block ≠ 1 then receiver.readLoop r1 rest
        else
          match res with
          | none =>
            let a := r1.abort GoErr.oackBad
            ⟨0, a.1, some GoErr.oackBad, a.2, rest⟩
          | some opts =>
            let r2 := receiver.applyOackOpts r1 opts
            ⟨0, { r2 with block := 0, opts := some opts }, none, [], rest⟩
      | Dgram.perror c m => ⟨0, { r with tid := port }, some (GoErr.peer c m), [], rest⟩
      | Dgram.other => receiver.readLoop { r with tid := port } rest

/-- `receiver.receiveDatagram`: set the read deadline (which fails with a
`net.Error` when the socket is closed), transmit the current send-buffer
prefix `out` to `r.addr`, then run the read loop. -/
def receiver.receiveDatagram (r : receiver) (out : Wire) (evs : List NetEvent) : RDResult :=
  if r.connOpen then
    let q := r.readLoop evs
    ⟨q.n, q.st, q.res, Effect.send r.peerIP r.peerPort out :: q.effs, q.rest⟩
  else ⟨0, r, some GoErr.net, [], evs⟩

/-- The loop of `receiver.receiveWithRetry`.  The Go loop retries while the
error is a `net.Error` and `retry.count() < r.retries`; the backoff object is
not among the supplied sources, so its counter (per the spec: reset to zero,
incremented by each `backoff()`) is folded into the explicit fuel
`retries - count`. -/
def receiver.retryLoop (out : Wire) : Nat → receiver → List NetEvent → RDResult
  | 0, r, evs => r.receiveDatagram out evs
  | Nat.succ f, r, evs =>
    let q := r.receiveDatagram out evs
    match q.res with
    | some GoErr.net =>
      let q2 := receiver.retryLoop out f q.st q.rest
      ⟨q2.n, q2.st, q2.res, q.effs ++ q2.effs, q2.rest⟩
    | _ => q

/-- `receiver.receiveWithRetry`: reset the retry counter and run the loop. -/
def receiver.receiveWithRetry (r : receiver) (out : Wire) (evs : List NetEvent) : RDResult :=
  receiver.retryLoop out r.retries r evs

/-- Result of the dallying loop in `terminate`: state, whether all three
iterations received a packet (the "dallying termination failed" case),
effects, unread events. -/
structure DallyResult where
  st : receiver
  failed : Bool
  effs : List Effect
  rest : List NetEvent
  deriving DecidableEq, Repr

/-- The three-iteration loop in `receiver.terminate` when `dally` is set: each
iteration sends the 4-byte send-buffer prefix (the final ACK) and waits; any
error makes `terminate` return nil. -/
def receiver.dallyLoop : Nat → receiver → List NetEvent → DallyResult
  | 0, r, evs => ⟨r, true, [], evs⟩
  | Nat.succ f, r, evs =>
    let q := r.receiveDatagram (Wire.ackPkt r.sendOp r.sendBlk) evs
    match q.res with
    | some _ => ⟨q.st, false, q.effs, q.rest⟩
    | none =>
      let d := receiver.dallyLoop f q.st q.rest
      ⟨d.st, d.failed, q.effs ++ d.effs, d.rest⟩

/-- `receiver.terminate`: a no-op when the conn field is nil; otherwise write
the block number into the send buffer, then either dally (up to three
re-ACKing receive attempts) or send the final ACK once, and (deferred) close
the socket.  Note it does not clear the conn field. -/
def receiver.terminate (r : receiver) (evs : List NetEvent) : TermResult :=
  if r.connNil then ⟨r, none, [], evs⟩
  else
    let r1 := { r with sendBlk := r.block }
    if r1.dally then
      let d := receiver.dallyLoop 3 r1 evs
      ⟨{ d.st with connOpen := false },
       if d.failed then some GoErr.dallyFail else none,
       d.effs ++ [Effect.closeConn], d.rest⟩
    else
      if r1.connOpen then
        ⟨{ r1 with connOpen := false }, none,
         [Effect.send r1.peerIP r1.peerPort (Wire.ackPkt r1.sendOp r1.sendBlk),
          Effect.closeConn], evs⟩
      else
        ⟨{ r1 with connOpen := false }, some GoErr.net, [Effect.closeConn], evs⟩

/-- The option-filtering loop in `receiver.sendOptions`: a `blksize` entry is
kept when `setBlockSize` succeeds (which also resizes the receive buffer) and
deleted when it fails; every other entry is deleted.  Go map iteration order
is unspecified; the outcome is order-independent and modelled in list order. -/
def receiver.filterOpts : receiver → Opts → receiver × Opts
  | r, [] => (r, [])
  | r, (name, value) :: rest =>
    if name = "blksize" then
      match r.setBlockSize value with
      | Except.ok r1 =>
        let p := receiver.filterOpts r1 rest
        (p.1, (name, value) :: p.2)
      | Except.error _ => receiver.filterOpts r rest
    else receiver.filterOpts r rest

/-- `receiver.sendOptions`: filter the options; when any survive, pack them
into an OACK (overwriting the send buffer: `sendBlk` is modelled as cleared
since every later 4-byte send rewrites it first), set `block = 1`, and run a
round-trip; on its failure abort. -/
def receiver.sendOptions (r : receiver) (evs : List NetEvent) : TermResult :=
  let p := receiver.filterOpts r (r.opts.getD [])
  let r2 := { p.1 with opts := some p.2 }
  if p.2 = [] then ⟨r2, none, [], evs⟩
  else
    let r3 := { r2 with sendOp := opOACK, sendBlk := 0, block := 1 }
    let q := r3.receiveWithRetry (Wire.oackPkt p.2) evs
    match q.res with
    | some e =>
      let a := q.st.abort e
      ⟨a.1, some e, q.effs ++ a.2, q.rest⟩
    | none => ⟨{ q.st with l := q.n }, none, q.effs, q.rest⟩

/-- Abstraction of the user `io.Writer` sink: from the payload length, the
bytes-written count and the error `w.Write` returns. -/
def Sink := Nat → Nat × Option GoErr

/-- A sink that always succeeds, writing every byte offered. -/
def sinkOk : Sink := fun k => (k, none)

/-- Result of `WriteTo`: total bytes written to the sink, returned error,
final state, effects, unread events. -/
structure WTResult where
  n : Nat
  err : Option GoErr
  st : receiver
  effs : List Effect
  rest : List NetEvent
  deriving DecidableEq, Repr

/-- The main loop of `receiver.WriteTo`: write out the pending payload, stop
after a short block (auto-terminating when configured), otherwise ACK the
current block, expect the next one, and repeat.  `fuel` bounds the number of
loop iterations (the Go loop runs until a short block or an error). -/
def receiver.writeToLoop (sink : Sink) : Nat → receiver → List NetEvent → WTResult
  | 0, r, evs => ⟨0, none, r, [], evs⟩
  | Nat.succ fuel, r, evs =>
    if 0 < r.l then
      match sink (r.l - 4) with
      | (wl, some e) =>
        let a := r.abort e
        ⟨wl, some e, a.1, a.2, evs⟩
      | (wl, none) =>
        if r.l < r.recvCap then
          if r.autoTerm then
            let t := r.terminate evs
            ⟨wl, none, t.st, t.effs, t.rest⟩
          else ⟨wl, none, r, [], evs⟩
        else
          let r2 := { r with sendBlk := r.block, block := (r.block + 1) % 65536 }
          let q := r2.receiveWithRetry (Wire.ackPkt r2.sendOp r2.sendBlk) evs
          match q.res with
          | some e =>
            let a := q.st.abort e
            ⟨wl, some e, a.1, q.effs ++ a.2, q.rest⟩
          | none =>
            let w := receiver.writeToLoop sink fuel { q.st with l := q.n } q.rest
            ⟨wl + w.n, w.err, w.st, q.effs ++ w.effs, w.rest⟩
    else
      let r2 := { r with sendBlk := r.block, block := (r.block + 1) % 65536 }
      let q := r2.receiveWithRetry (Wire.ackPkt r2.sendOp r2.sendBlk) evs
      match q.res with
      | some e =>
        let a := q.st.abort e
        ⟨0, some e, a.1, q.effs ++ a.2, q.rest⟩
      | none =>
        let w := receiver.writeToLoop sink fuel { q.st with l := q.n } q.rest
        ⟨w.n, w.err, w.st, q.effs ++ w.effs, w.rest⟩

/-- `receiver.WriteTo`: negotiate options when an option map is attached
(aborting again, as the code does, on their failure — a no-op since
`sendOptions` already aborted), write the ACK opcode into the send buffer,
then run the main loop. -/
def receiver.WriteTo (sink : Sink) (fuel : Nat) (r : receiver) (evs : List NetEvent) :
    WTResult :=
  match r.opts with
  | some _ =>
    let s := r.sendOptions evs
    match s.err with
    | some e =>
      let a := s.st.abort e
      ⟨0, some e, a.1, s.effs ++ a.2, s.rest⟩
    | none =>
      let w := receiver.writeToLoop sink fuel { s.st with sendOp := opACK } s.rest
      ⟨w.n, w.err, w.st, s.effs ++ w.effs, w.rest⟩
  | none =>
    let w := receiver.writeToLoop sink fuel { r with sendOp := opACK } evs
    ⟨w.n, w.err, w.st, w.effs, w.rest⟩

/-- The receiver session `Server.handlePacket` constructs for a WRQ: both
buffers of length `datagramLength`, peer address the request's source,
`timeout`/`retries` from the server, and `tid`, `block`, `l`, `dally`,
`autoTerm` left as Go zero values. -/
def handleWRQ (remoteIP remotePort : Nat) (localIP : Option Nat) (mode : String)
    (opts : Option Opts) (retries : Nat) : receiver :=
  { sendOp := 0, sendBlk := 0, recvCap := datagramLength, peerIP := remoteIP,
    peerPort := remotePort, localIP := localIP, connOpen := true, connNil := false,
    tid := 0, block := 0, retries := retries, l := 0, dally := false,
    autoTerm := false, mode := mode, opts := opts }

/-- The fields `Server.handlePacket` assigns in the `sender` composite literal
for an RRQ (the sender state machine itself is not among the supplied
sources; only the construction is modelled). -/
structure senderSession where
  tid : Nat
  addrIP : Nat
  addrPort : Nat
  localIP : Option Nat
  retries : Nat
  mode : String
  opts : Option Opts
  deriving DecidableEq, Repr

/-- The sender session `Server.handlePacket` constructs for an RRQ: note
`tid` is assigned `remoteAddr.Port` there. -/
def handleRRQ (remoteIP remotePort : Nat) (localIP : Option Nat) (mode : String)
    (opts : Option Opts) (retries : Nat) : senderSession :=
  { tid := remotePort, addrIP := remoteIP, addrPort := remotePort,
    localIP := localIP, retries := retries, mode := mode, opts := opts }

/-- The body of the goroutine `Server.handlePacket` launches for a WRQ, with a
write handler that calls `WriteTo` and propagates its error: on handler error
the goroutine calls `abort`, otherwise `terminate`. -/
def runWriteSession (sink : Sink) (fuel : Nat) (r : receiver) (evs : List NetEvent) :
    receiver × List Effect :=
  let w := receiver.WriteTo sink fuel r evs
  match w.err with
  | some e =>
    let a := w.st.abort e
    (a.1, w.effs ++ a.2)
  | none =>
    let t := w.st.terminate w.rest
    (t.st, w.effs ++ t.effs)

/-- Number of `Close` calls on the session socket in an effect trace. -/
def countClose (effs : List Effect) : Nat :=
  effs.countP (fun e => decide (e = Effect.closeConn))

/-- Whether an effect is the transmission of a 4-byte (ACK) send. -/
def isAckSend : Effect → Bool
  | Effect.send _ _ (Wire.ackPkt _ _) => true
  | _ => false

/-- Whether an effect is the transmission of an OACK. -/
def isOackSend : Effect → Bool
  | Effect.send _ _ (Wire.oackPkt _) => true
  | _ => false

/-- Whether an effect is the transmission of an ERROR packet. -/
def isErrSend : Effect → Bool
  | Effect.send _ _ (Wire.errPkt _ _) => true
  | _ => false

/-- Whether a read event delivers an OACK datagram. -/
def isOackEv : NetEvent → Bool
  | NetEvent.dgram _ _ (Dgram.oack _) => true
  | _ => false

/-- Option acceptance as the spec's words state it: only a `blksize` entry
whose value parses as an integer in the closed interval 512..65464. -/
def acceptOpt (p : String × String) : Bool :=
  if p.1 = "blksize" then
    match atoi p.2 with
    | some n => decide (512 ≤ n) && decide (n ≤ 65464)
    | none => false
  else false

/-- C2: for every receiver session whose `tid` is non-zero, an incoming
datagram whose source IP differs from the peer IP or whose source port
differs from `tid` is silently discarded: processing it is identical to
processing the remaining traffic without it — no state change, no effect,
no reply. -/
theorem c2_tid_mismatch_discarded (r : receiver) (ip port : Nat) (d : Dgram)
    (rest : List NetEvent) (htid : r.tid ≠ 0) (h : ip ≠ r.peerIP ∨ port ≠ r.tid) :
    r.readLoop (NetEvent.dgram ip port d :: rest) = r.readLoop rest := by
  have hcond : ip ≠ r.peerIP ∨ (r.tid ≠ 0 ∧ port ≠ r.tid) := by
    rcases h with h | h
    · exact Or.inl h
    · exact Or.inr ⟨htid, h⟩
  simp only [receiver.readLoop]
  rw [if_pos hcond]

theorem c2_witness :
    ({ handleWRQ 1 2 none "octet" none 5 with tid := 7 } : receiver).tid ≠ 0 ∧
    receiver.readLoop { handleWRQ 1 2 none "octet" none 5 with tid := 7 }
      [NetEvent.dgram 1 9 Dgram.other] =
      receiver.readLoop { handleWRQ 1 2 none "octet" none 5 with tid := 7 } [] :=
  ⟨by decide,
   c2_tid_mismatch_discarded _ 1 9 Dgram.other [] (by decide) (Or.inr (by decide))⟩

/-- C7 counterexample: the claim asserts every session the listener constructs
starts with TID unset, but the sender session built for an RRQ from source
port 5555 starts with `tid = 5555`. -/
theorem c7_counterexample : ¬ (handleRRQ 1 5555 none "octet" none 5).tid = 0 := by
  decide

/-- C7 (amended): a WRQ receiver session starts with peer address equal to the
request's source and TID unset (zero), while an RRQ sender session starts
with peer address equal to the request's source but TID already set to the
request's source port. -/
theorem c7_amended (remoteIP remotePort : Nat) (localIP : Option Nat) (mode : String)
    (opts : Option Opts) (retries : Nat) :
    (handleWRQ remoteIP remotePort localIP mode opts retries).peerIP = remoteIP ∧
    (handleWRQ remoteIP remotePort localIP mode opts retries).peerPort = remotePort ∧
    (handleWRQ remoteIP remotePort localIP mode opts retries).tid = 0 ∧
    (handleRRQ remoteIP remotePort localIP mode opts retries).addrIP = remoteIP ∧
    (handleRRQ remoteIP remotePort localIP mode opts retries).addrPort = remotePort ∧
    (handleRRQ remoteIP remotePort localIP mode opts retries).tid = remotePort :=
  ⟨rfl, rfl, rfl, rfl, rfl, rfl⟩

/-- C8: when the reply that passes the address filter is an ERROR packet, the
round-trip returns a peer-error result carrying the packet's code and
message, and the retry loop does not retransmit for it (only one send — the
initial one — appears in the effects; only `net.Error`s are retried). -/
theorem c8_peer_error_not_retried (r : receiver) (out : Wire) (ip port c : Nat)
    (m : String) (rest : List NetEvent) (hopen : r.connOpen = true)
    (hip : ip = r.peerIP) (hport : r.tid = 0 ∨ port = r.tid) :
    r.receiveWithRetry out (NetEvent.dgram ip port (Dgram.perror c m) :: rest) =
      ⟨0, { r with tid := port }, some (GoErr.peer c m),
       [Effect.send r.peerIP r.peerPort out], rest⟩ := by
  have hcond : ¬ (ip ≠ r.peerIP ∨ (r.tid ≠ 0 ∧ port ≠ r.tid)) := by
    rintro (h | ⟨h1, h2⟩)
    · exact h hip
    · rcases hport with h3 | h3
      · exact h1 h3
      · exact h2 h3
  have h1 : r.readLoop (NetEvent.dgram ip port (Dgram.perror c m) :: rest) =
      ⟨0, { r with tid := port }, some (GoErr.peer c m), [], rest⟩ := by
    simp only [receiver.readLoop]
    rw [if_neg hcond]
  have h2 : r.receiveDatagram out (NetEvent.dgram ip port (Dgram.perror c m) :: rest) =
      ⟨0, { r with tid := port }, some (GoErr.peer c m),
       [Effect.send r.peerIP r.peerPort out], rest⟩ := by
    simp only [receiver.receiveDatagram, hopen, if_true, h1]
  have key : ∀ fuel, receiver.retryLoop out fuel r
      (NetEvent.dgram ip port (Dgram.perror c m) :: rest) =
      ⟨0, { r with tid := port }, some (GoErr.peer c m),
       [Effect.send r.peerIP r.peerPort out], rest⟩ := by
    intro fuel
    cases fuel with
    | zero =>
      simp only [receiver.retryLoop]
      exact h2
    | succ f =>
      simp only [receiver.retryLoop, h2]
  exact key r.retries

theorem c8_witness :
    receiver.receiveWithRetry (handleWRQ 1 2 none "octet" none 5) (Wire.ackPkt 4 0)
      [NetEvent.dgram 1 9 (Dgram.perror 3 "disk full")] =
      ⟨0, { handleWRQ 1 2 none "octet" none 5 with tid := 9 }, some (GoErr.peer 3 "disk full"),
       [Effect.send 1 2 (Wire.ackPkt 4 0)], []⟩ :=
  c8_peer_error_not_retried (handleWRQ 1 2 none "octet" none 5) (Wire.ackPkt 4 0)
    1 9 3 "disk full" [] rfl rfl (Or.inl rfl)

/-- C1 counterexample: the claim asserts that on exhausted retries no ERROR
packet is transmitted to the peer, but running a WRQ session with 2 retries
against a fully unresponsive network, `WriteTo` fails with the network error
(which the write handler receives) and the effect trace contains the
transmission of an ERROR packet to the peer (sent by `abort`). -/
theorem c1_counterexample :
    (receiver.WriteTo sinkOk 1 (handleWRQ 10 9999 none "octet" none 2)
      [NetEvent.timeout, NetEvent.timeout, NetEvent.timeout]).err = some GoErr.net ∧
    Effect.send 10 9999 (Wire.errPkt 1 (errMsg GoErr.net)) ∈
      (receiver.WriteTo sinkOk 1 (handleWRQ 10 9999 none "octet" none 2)
        [NetEvent.timeout, NetEvent.timeout, NetEvent.timeout]).effs := by
  decide

/-- C3 counterexample: the claim asserts no exit path closes the socket twice,
naming the auto-terminating completion path followed by the caller's own
`terminate` call; on exactly that path (a one-block transfer with `autoTerm`
set) the socket is closed twice, because `terminate` does not clear the conn
field and so the caller's `terminate` runs `Close` again. -/
theorem c3_counterexample :
    countClose (runWriteSession sinkOk 2
      { handleWRQ 1 2 none "octet" none 5 with autoTerm := true }
      [NetEvent.dgram 1 7 (Dgram.data 1 3)]).2 = 2 := by
  decide

/-- C6 counterexample: the claim asserts `tid` is set at the first accepted
reply and not earlier; here the first datagram from peer port 7777 carries a
DATA block the state machine does not accept (block 9 while expecting 1),
yet `tid` is locked to 7777, and the subsequent correct DATA block 1 from
port 8888 is discarded — the round-trip ends in a timeout error with no
reply ever accepted and `tid` set. -/
theorem c6_counterexample :
    (receiver.readLoop { handleWRQ 5 700 none "octet" none 3 with block := 1 }
      [NetEvent.dgram 5 7777 (Dgram.data 9 0),
       NetEvent.dgram 5 8888 (Dgram.data 1 0)]).st.tid = 7777 ∧
    (receiver.readLoop { handleWRQ 5 700 none "octet" none 3 with block := 1 }
      [NetEvent.dgram 5 7777 (Dgram.data 9 0),
       NetEvent.dgram 5 8888 (Dgram.data 1 0)]).res = some GoErr.net := by
  decide

/-- On a fully silent network the read loop returns the deadline error at the
first read, consuming at most one event and changing nothing. -/
theorem readLoop_allTimeout (r : receiver) (evs : List NetEvent)
    (h : ∀ e ∈ evs, e = NetEvent.timeout) :
    r.readLoop evs = ⟨0, r, some GoErr.net, [], evs.drop 1⟩ := by
  cases evs with
  | nil => rfl
  | cons e rest =>
    have he : e = NetEvent.timeout := h e (List.mem_cons_self e rest)
    subst he
    rfl

/-- On a fully silent network a single round-trip attempt sends the outgoing
datagram once and fails with the network error. -/
theorem receiveDatagram_allTimeout (r : receiver) (out : Wire) (evs : List NetEvent)
    (hopen : r.connOpen = true) (h : ∀ e ∈ evs, e = NetEvent.timeout) :
    r.receiveDatagram out evs =
      ⟨0, r, some GoErr.net, [Effect.send r.peerIP r.peerPort out], evs.drop 1⟩ := by
  simp only [receiver.receiveDatagram, hopen, if_true, readLoop_allTimeout r evs h]

/-- On a fully silent network the retry loop with fuel `f` transmits the same
datagram exactly `f + 1` times, returns the network error, and leaves the
state unchanged. -/
theorem retryLoop_allTimeout (out : Wire) (fuel : Nat) (r : receiver)
    (evs : List NetEvent) (hopen : r.connOpen = true)
    (h : ∀ e ∈ evs, e = NetEvent.timeout) :
    receiver.retryLoop out fuel r evs =
      ⟨0, r, some GoErr.net,
       List.replicate (fuel + 1) (Effect.send r.peerIP r.peerPort out),
       evs.drop (fuel + 1)⟩ := by
  induction fuel generalizing evs with
  | zero =>
    simp only [receiver.retryLoop, receiveDatagram_allTimeout r out evs hopen h,
      List.replicate]
  | succ f ih =>
    have hrest : ∀ e ∈ evs.drop 1, e = NetEvent.timeout :=
      fun e he => h e (List.drop_subset 1 evs he)
    simp only [receiver.retryLoop, receiveDatagram_allTimeout r out evs hopen h,
      ih (evs.drop 1) hrest]
    simp only [List.replicate_succ, List.cons_append, List.nil_append,
      List.drop_drop, RDResult.mk.injEq, true_and]
    congr 1
    omega

/-- C5: on a round-trip in which every receive attempt fails with a network
timeout, `receiveWithRetry` terminates, transmits the same outgoing datagram
exactly `retries + 1` times (the initial send plus `retries` retransmissions),
leaves the session state unchanged, and returns the network failure. -/
theorem c5_retry_bound (r : receiver) (out : Wire) (evs : List NetEvent)
    (hopen : r.connOpen = true) (h : ∀ e ∈ evs, e = NetEvent.timeout) :
    r.receiveWithRetry out evs =
      ⟨0, r, some GoErr.net,
       List.replicate (r.retries + 1) (Effect.send r.peerIP r.peerPort out),
       evs.drop (r.retries + 1)⟩ :=
  retryLoop_allTimeout out r.retries r evs hopen h

theorem c5_witness :
    receiver.receiveWithRetry (handleWRQ 1 2 none "octet" none 2) (Wire.ackPkt 4 0)
      [NetEvent.timeout] =
      ⟨0, handleWRQ 1 2 none "octet" none 2, some GoErr.net,
       List.replicate 3 (Effect.send 1 2 (Wire.ackPkt 4 0)), []⟩ :=
  c5_retry_bound (handleWRQ 1 2 none "octet" none 2) (Wire.ackPkt 4 0)
    [NetEvent.timeout] rfl (by decide)

/-- On a fully silent network, one `WriteTo` loop iteration (with no pending
payload) sends ACKs until the retries are exhausted, then aborts: the ERROR
packet is transmitted, the socket closed, the conn field cleared, and the
network error returned. -/
theorem writeToLoop_allTimeout (sink : Sink) (fuel : Nat) (r : receiver)
    (evs : List NetEvent) (hopen : r.connOpen = true) (hnil : r.connNil = false)
    (hl : r.l = 0) (h : ∀ e ∈ evs, e = NetEvent.timeout) :
    receiver.writeToLoop sink (fuel + 1) r evs =
      ⟨0, some GoErr.net,
       { r with
         sendBlk := 1
         block := (r.block + 1) % 65536
         sendOp := opERROR
         connOpen := false
         connNil := true },
       List.replicate (r.retries + 1)
           (Effect.send r.peerIP r.peerPort (Wire.ackPkt r.sendOp r.block)) ++
         [Effect.send r.peerIP r.peerPort (Wire.errPkt 1 (errMsg GoErr.net)),
          Effect.closeConn],
       evs.drop (r.retries + 1)⟩ := by
  have h0 : ¬ 0 < r.l := by omega
  have hq := retryLoop_allTimeout (Wire.ackPkt r.sendOp r.block) r.retries
    { r with sendBlk := r.block, block := (r.block + 1) % 65536 } evs hopen h
  rw [hopen, hnil] at hq
  simp only [receiver.writeToLoop, receiver.receiveWithRetry]
  rw [if_neg h0]
  simp only [hopen, hnil, hq, receiver.abort, Bool.false_eq_true, if_false, if_true,
    List.cons_append, List.nil_append]

/-- C1 (amended): for every receiver session whose retries are exhausted (every
receive attempt fails with a network timeout, `retries + 1` ACK transmissions
in all), the session does not abort silently: `abort` transmits an ERROR
packet with code 1 to the peer and closes the socket (clearing the conn
field), and the user write-handler receives the network failure as
`WriteTo`'s returned error. -/
theorem c1_amended (ip port : Nat) (lip : Option Nat) (mode : String)
    (retries fuel : Nat) (evs : List NetEvent)
    (h : ∀ e ∈ evs, e = NetEvent.timeout) :
    receiver.WriteTo sinkOk (fuel + 1) (handleWRQ ip port lip mode none retries) evs =
      ⟨0, some GoErr.net,
       { handleWRQ ip port lip mode none retries with
         block := 1
         sendOp := opERROR
         sendBlk := 1
         connOpen := false
         connNil := true },
       List.replicate (retries + 1) (Effect.send ip port (Wire.ackPkt opACK 0)) ++
         [Effect.send ip port (Wire.errPkt 1 (errMsg GoErr.net)), Effect.closeConn],
       evs.drop (retries + 1)⟩ := by
  have hw := writeToLoop_allTimeout sinkOk fuel
    { handleWRQ ip port lip mode none retries with sendOp := opACK } evs rfl rfl rfl h
  have hdef : receiver.WriteTo sinkOk (fuel + 1)
      (handleWRQ ip port lip mode none retries) evs =
      ⟨(receiver.writeToLoop sinkOk (fuel + 1)
          { handleWRQ ip port lip mode none retries with sendOp := opACK } evs).n,
       (receiver.writeToLoop sinkOk (fuel + 1)
          { handleWRQ ip port lip mode none retries with sendOp := opACK } evs).err,
       (receiver.writeToLoop sinkOk (fuel + 1)
          { handleWRQ ip port lip mode none retries with sendOp := opACK } evs).st,
       (receiver.writeToLoop sinkOk (fuel + 1)
          { handleWRQ ip port lip mode none retries with sendOp := opACK } evs).effs,
       (receiver.writeToLoop sinkOk (fuel + 1)
          { handleWRQ ip port lip mode none retries with sendOp := opACK } evs).rest⟩ :=
    rfl
  rw [hdef, hw]
  rfl

theorem c1_amended_witness :
    receiver.WriteTo sinkOk 1 (handleWRQ 3 9 none "octet" none 1)
      [NetEvent.timeout, NetEvent.timeout] =
      ⟨0, some GoErr.net,
       { handleWRQ 3 9 none "octet" none 1 with
         block := 1
         sendOp := opERROR
         sendBlk := 1
         connOpen := false
         connNil := true },
       List.replicate 2 (Effect.send 3 9 (Wire.ackPkt opACK 0)) ++
         [Effect.send 3 9 (Wire.errPkt 1 (errMsg GoErr.net)), Effect.closeConn],
       []⟩ :=
  c1_amended 3 9 none "octet" 1 0 [NetEvent.timeout, NetEvent.timeout] (by decide)

/-- Close counting distributes over trace concatenation. -/
theorem countClose_append (xs ys : List Effect) :
    countClose (xs ++ ys) = countClose xs + countClose ys := by
  simp [countClose, List.countP_append]

/-- A run of datagram transmissions contains no `Close` call. -/
theorem countClose_replicate_send (n ip port : Nat) (w : Wire) :
    countClose (List.replicate n (Effect.send ip port w)) = 0 := by
  rw [countClose, List.countP_eq_zero]
  intro a ha
  rw [List.mem_replicate] at ha
  simp [ha.2]

/-- C3 (amended): every exit path closes the session socket, and on the
exhausted-retries (abort) path as well as the ordinary completion path —
where the caller's own `terminate` performs the single close — it is closed
exactly once; but on the auto-terminating completion path followed by the
caller's own `terminate` call the socket's `Close` runs twice, because
`terminate` does not clear the conn field, so the caller's `terminate` is
not a no-op and closes the already-closed socket again. -/
theorem c3_amended :
    (∀ ip port retries fuel evs, (∀ e ∈ evs, e = NetEvent.timeout) →
      countClose (runWriteSession sinkOk (fuel + 1)
        (handleWRQ ip port none "octet" none retries) evs).2 = 1) ∧
    countClose (runWriteSession sinkOk 2 (handleWRQ 1 2 none "octet" none 5)
      [NetEvent.dgram 1 7 (Dgram.data 1 3)]).2 = 1 ∧
    countClose (runWriteSession sinkOk 2
      { handleWRQ 1 2 none "octet" none 5 with autoTerm := true }
      [NetEvent.dgram 1 7 (Dgram.data 1 3)]).2 = 2 := by
  refine ⟨?_, by decide, by decide⟩
  intro ip port retries fuel evs h
  have hw := writeToLoop_allTimeout sinkOk fuel
    { handleWRQ ip port none "octet" none retries with sendOp := opACK } evs rfl rfl rfl h
  have hWT : receiver.WriteTo sinkOk (fuel + 1)
      (handleWRQ ip port none "octet" none retries) evs =
      ⟨0, some GoErr.net,
       { handleWRQ ip port none "octet" none retries with
         block := 1
         sendOp := opERROR
         sendBlk := 1
         connOpen := false
         connNil := true },
       List.replicate (retries + 1) (Effect.send ip port (Wire.ackPkt opACK 0)) ++
         [Effect.send ip port (Wire.errPkt 1 (errMsg GoErr.net)), Effect.closeConn],
       evs.drop (retries + 1)⟩ := by
    have hdef : receiver.WriteTo sinkOk (fuel + 1)
        (handleWRQ ip port none "octet" none retries) evs =
        ⟨(receiver.writeToLoop sinkOk (fuel + 1)
            { handleWRQ ip port none "octet" none retries with sendOp := opACK } evs).n,
         (receiver.writeToLoop sinkOk (fuel + 1)
            { handleWRQ ip port none "octet" none retries with sendOp := opACK } evs).err,
         (receiver.writeToLoop sinkOk (fuel + 1)
            { handleWRQ ip port none "octet" none retries with sendOp := opACK } evs).st,
         (receiver.writeToLoop sinkOk (fuel + 1)
            { handleWRQ ip port none "octet" none retries with sendOp := opACK } evs).effs,
         (receiver.writeToLoop sinkOk (fuel + 1)
            { handleWRQ ip port none "octet" none retries with sendOp := opACK } evs).rest⟩ :=
      rfl
    rw [hdef, hw]
    rfl
  simp only [runWriteSession, hWT, receiver.abort]
  simp only [List.append_nil, countClose_append, countClose_replicate_send]
  rfl

theorem c3_amended_witness :
    countClose (runWriteSession sinkOk 1 (handleWRQ 4 8 none "octet" none 2)
      [NetEvent.timeout]).2 = 1 :=
  c3_amended.1 4 8 2 0 [NetEvent.timeout] (by decide)


/-- Evaluation of the spec-side acceptance predicate on a blksize entry. -/
theorem acceptOpt_blksize (v : String) :
    acceptOpt ("blksize", v) =
      match atoi v with
      | some n => decide (512 ≤ n) && decide (n ≤ 65464)
      | none => false := by
  simp [acceptOpt]

/-- A successful `setBlockSize` only reallocates the receive buffer. -/
theorem setBlockSize_shape (r r1 : receiver) (v : String)
    (h : receiver.setBlockSize r v = Except.ok r1) :
    r1 = { r with recvCap := r1.recvCap } := by
  unfold receiver.setBlockSize at h
  cases ha : atoi v with
  | none => rw [ha] at h; cases h
  | some n =>
    rw [ha] at h
    dsimp only at h
    split_ifs at h with h1 h2
    cases h
    rfl

/-- `setBlockSize` succeeds exactly on the values the spec accepts. -/
theorem setBlockSize_ok_acceptOpt (r r1 : receiver) (v : String)
    (h : receiver.setBlockSize r v = Except.ok r1) :
    acceptOpt ("blksize", v) = true := by
  unfold receiver.setBlockSize at h
  cases ha : atoi v with
  | none => rw [ha] at h; cases h
  | some n =>
    rw [ha] at h
    dsimp only at h
    split_ifs at h with h1 h2
    rw [acceptOpt_blksize, ha]
    simp only [defaultBlockSize, maxBlockSize, not_lt] at h1 h2
    simp only [Bool.and_eq_true, decide_eq_true_eq]
    exact ⟨by omega, by omega⟩

/-- `setBlockSize` fails exactly on the values the spec rejects. -/
theorem setBlockSize_error_acceptOpt (r : receiver) (v : String) (e : GoErr)
    (h : receiver.setBlockSize r v = Except.error e) :
    acceptOpt ("blksize", v) = false := by
  unfold receiver.setBlockSize at h
  cases ha : atoi v with
  | none => rw [acceptOpt_blksize, ha]
  | some n =>
    rw [ha] at h
    dsimp only at h
    rw [acceptOpt_blksize, ha]
    split_ifs at h with h1 h2
    · simp only [defaultBlockSize] at h1
      rw [Bool.eq_false_iff]
      intro hc
      simp only [Bool.and_eq_true, decide_eq_true_eq] at hc
      omega
    · simp only [maxBlockSize] at h2
      rw [Bool.eq_false_iff]
      intro hc
      simp only [Bool.and_eq_true, decide_eq_true_eq] at hc
      omega

/-- The options surviving `sendOptions`' filtering loop are exactly those the
spec-side acceptance predicate keeps. -/
theorem filterOpts_kept (r : receiver) (l : Opts) :
    (receiver.filterOpts r l).2 = l.filter acceptOpt := by
  induction l generalizing r with
  | nil => rfl
  | cons p rest ih =>
    obtain ⟨name, value⟩ := p
    by_cases hn : name = "blksize"
    · subst hn
      simp only [receiver.filterOpts, if_pos rfl]
      cases hsb : receiver.setBlockSize r value with
      | ok r1 =>
        have hacc := setBlockSize_ok_acceptOpt r r1 value hsb
        simp [List.filter_cons, hacc, ih]
      | error e =>
        have hacc := setBlockSize_error_acceptOpt r value e hsb
        simp [List.filter_cons, hacc, ih]
    · have hacc : acceptOpt (name, value) = false := by simp [acceptOpt, hn]
      simp only [receiver.filterOpts, if_neg hn]
      simp [List.filter_cons, hacc, ih]

/-- The filtering loop changes nothing in the session state but the receive
buffer capacity. -/
theorem filterOpts_st (r : receiver) (l : Opts) :
    ∃ c, (receiver.filterOpts r l).1 = { r with recvCap := c } := by
  induction l generalizing r with
  | nil => exact ⟨r.recvCap, rfl⟩
  | cons p rest ih =>
    obtain ⟨name, value⟩ := p
    by_cases hn : name = "blksize"
    · subst hn
      simp only [receiver.filterOpts, if_pos rfl]
      cases hsb : receiver.setBlockSize r value with
      | ok r1 =>
        simp only [if_true]
        obtain ⟨c, hc⟩ := ih r1
        refine ⟨c, ?_⟩
        rw [hc, setBlockSize_shape r r1 value hsb]
      | error e =>
        simp only [if_true]
        exact ih r
    · simp only [receiver.filterOpts, if_neg hn]
      exact ih r

/-- The OACK option-application loop changes nothing in the session state but
the receive buffer capacity. -/
theorem applyOackOpts_st (r : receiver) (l : Opts) :
    ∃ c, receiver.applyOackOpts r l = { r with recvCap := c } := by
  induction l generalizing r with
  | nil => exact ⟨r.recvCap, rfl⟩
  | cons p rest ih =>
    obtain ⟨name, value⟩ := p
    by_cases hn : name = "blksize"
    · subst hn
      simp only [receiver.applyOackOpts, if_pos rfl]
      cases hsb : receiver.setBlockSize r value with
      | ok r1 =>
        simp only [if_true]
        obtain ⟨c, hc⟩ := ih r1
        refine ⟨c, ?_⟩
        rw [hc, setBlockSize_shape r r1 value hsb]
      | error e =>
        simp only [if_true]
        exact ih r
    · simp only [receiver.applyOackOpts, if_neg hn]
      exact ih r

/-- `abort` transmits no OACK. -/
theorem abort_effs_no_oack (r : receiver) (e : GoErr) :
    ∀ w ∈ (r.abort e).2, isOackSend w = false := by
  intro w hw
  unfold receiver.abort at hw
  split at hw
  · cases hw
  · rcases List.mem_append.mp hw with h | h
    · split at h
      · rcases List.mem_singleton.mp h with rfl
        rfl
      · cases h
    · rcases List.mem_singleton.mp h with rfl
      rfl

/-- `abort` preserves the peer address. -/
theorem abort_st_peer (r : receiver) (e : GoErr) :
    (r.abort e).1.peerIP = r.peerIP ∧ (r.abort e).1.peerPort = r.peerPort := by
  unfold receiver.abort
  split
  · exact ⟨rfl, rfl⟩
  · exact ⟨rfl, rfl⟩

/-- The read loop transmits no OACK and preserves the peer address. -/
theorem readLoop_frame (r : receiver) (evs : List NetEvent) :
    (∀ w ∈ (r.readLoop evs).effs, isOackSend w = false) ∧
    (r.readLoop evs).st.peerIP = r.peerIP ∧
    (r.readLoop evs).st.peerPort = r.peerPort := by
  induction evs generalizing r with
  | nil => exact ⟨fun w hw => absurd hw (List.not_mem_nil w), rfl, rfl⟩
  | cons e rest ih =>
    cases e with
    | timeout => exact ⟨fun w hw => absurd hw (List.not_mem_nil w), rfl, rfl⟩
    | dgram ip port d =>
      cases d with
      | malformed =>
        simp only [receiver.readLoop]
        split
        · exact ih r
        · exact ⟨fun w hw => absurd hw (List.not_mem_nil w), rfl, rfl⟩
      | data blk paylen =>
        simp only [receiver.readLoop]
        split
        · exact ih r
        · split
          · exact ⟨fun w hw => absurd hw (List.not_mem_nil w), rfl, rfl⟩
          · exact ih _
      | oack res =>
        simp only [receiver.readLoop]
        split
        · exact ih r
        · split
          · exact ih _
          · cases res with
            | none =>
              exact ⟨abort_effs_no_oack _ _, (abort_st_peer _ _).1, (abort_st_peer _ _).2⟩
            | some opts =>
              obtain ⟨c, hc⟩ := applyOackOpts_st { r with tid := port } opts
              have hp : (receiver.applyOackOpts { r with tid := port } opts).peerIP =
                  r.peerIP := by rw [hc]
              have hq : (receiver.applyOackOpts { r with tid := port } opts).peerPort =
                  r.peerPort := by rw [hc]
              exact ⟨fun w hw => absurd hw (List.not_mem_nil w), hp, hq⟩
      | perror code m =>
        simp only [receiver.readLoop]
        split
        · exact ih r
        · exact ⟨fun w hw => absurd hw (List.not_mem_nil w), rfl, rfl⟩
      | other =>
        simp only [receiver.readLoop]
        split
        · exact ih r
        · exact ih _

/-- Every OACK a round-trip attempt transmits is the outgoing datagram itself,
addressed to the peer; the attempt preserves the peer address. -/
theorem receiveDatagram_effs_oack (r : receiver) (out : Wire) (evs : List NetEvent) :
    (∀ w ∈ (r.receiveDatagram out evs).effs, isOackSend w = true →
      w = Effect.send r.peerIP r.peerPort out) ∧
    (r.receiveDatagram out evs).st.peerIP = r.peerIP ∧
    (r.receiveDatagram out evs).st.peerPort = r.peerPort := by
  unfold receiver.receiveDatagram
  split
  · refine ⟨?_, (readLoop_frame r evs).2.1, (readLoop_frame r evs).2.2⟩
    intro w hw hoack
    rcases List.mem_cons.mp hw with h | h
    · exact h
    · rw [(readLoop_frame r evs).1 w h] at hoack
      cases hoack
  · exact ⟨fun w hw _ => absurd hw (List.not_mem_nil w), rfl, rfl⟩

/-- Every OACK the retry loop transmits is the outgoing datagram itself,
addressed to the peer. -/
theorem retryLoop_effs_oack (out : Wire) (fuel : Nat) (r : receiver)
    (evs : List NetEvent) :
    ∀ w ∈ (receiver.retryLoop out fuel r evs).effs, isOackSend w = true →
      w = Effect.send r.peerIP r.peerPort out := by
  induction fuel generalizing r evs with
  | zero => exact (receiveDatagram_effs_oack r out evs).1
  | succ f ih =>
    intro w hw hoack
    simp only [receiver.retryLoop] at hw
    split at hw
    · rcases List.mem_append.mp hw with h | h
      · exact (receiveDatagram_effs_oack r out evs).1 w h hoack
      · have h2 := ih _ _ w h hoack
        rw [(receiveDatagram_effs_oack r out evs).2.1,
            (receiveDatagram_effs_oack r out evs).2.2] at h2
        exact h2
    · exact (receiveDatagram_effs_oack r out evs).1 w hw hoack

/-- With the socket open, the retry loop's first effect is the transmission of
the outgoing datagram to the peer. -/
theorem retryLoop_effs_head (out : Wire) (fuel : Nat) (r : receiver)
    (evs : List NetEvent) (hopen : r.connOpen = true) :
    ∃ t, (receiver.retryLoop out fuel r evs).effs =
      Effect.send r.peerIP r.peerPort out :: t := by
  have hrd : ∃ t0, (r.receiveDatagram out evs).effs =
      Effect.send r.peerIP r.peerPort out :: t0 := by
    unfold receiver.receiveDatagram
    rw [if_pos hopen]
    exact ⟨(r.readLoop evs).effs, rfl⟩
  cases fuel with
  | zero => exact hrd
  | succ f =>
    obtain ⟨t0, h0⟩ := hrd
    simp only [receiver.retryLoop]
    split
    · exact ⟨t0 ++ (receiver.retryLoop out f (r.receiveDatagram out evs).st
        (r.receiveDatagram out evs).rest).effs, by rw [h0, List.cons_append]⟩
    · exact ⟨t0, h0⟩

/-- A list starting with `a` still starts with `a` after appending. -/
theorem exists_cons_append (xs ys : List Effect) (a : Effect)
    (h : ∃ t, xs = a :: t) : ∃ t, xs ++ ys = a :: t := by
  obtain ⟨t, ht⟩ := h
  exact ⟨t ++ ys, by rw [ht, List.cons_append]⟩

/-- C4: the OACK the receiver sends carries exactly the accepted options: a
`blksize` entry survives the filter precisely when its value parses as an
integer in 512..65464, every other entry is deleted, and when nothing
survives `sendOptions` is a no-op (no packet sent, no error surfaced); when
something survives, the first transmission is the OACK holding exactly the
kept entries, and every OACK ever transmitted in the round carries exactly
those entries. -/
theorem c4_oack_exactly_accepted (r : receiver) (l : Opts) (evs : List NetEvent)
    (hopts : r.opts = some l) (hopen : r.connOpen = true) :
    (receiver.filterOpts r l).2 = l.filter acceptOpt ∧
    (l.filter acceptOpt = [] →
      r.sendOptions evs = ⟨{ (receiver.filterOpts r l).1 with opts := some [] },
        none, [], evs⟩) ∧
    (l.filter acceptOpt ≠ [] →
      (∃ t, (r.sendOptions evs).effs =
        Effect.send r.peerIP r.peerPort (Wire.oackPkt (l.filter acceptOpt)) :: t) ∧
      (∀ w ∈ (r.sendOptions evs).effs, isOackSend w = true →
        w = Effect.send r.peerIP r.peerPort (Wire.oackPkt (l.filter acceptOpt)))) := by
  have hk := filterOpts_kept r l
  obtain ⟨c, hst⟩ := filterOpts_st r l
  refine ⟨hk, ?_, ?_⟩
  · intro hnil
    simp only [receiver.sendOptions, hopts, Option.getD_some, hk, hnil]
    rfl
  · intro hne
    simp only [receiver.sendOptions, receiver.receiveWithRetry, hopts, Option.getD_some,
      hk, hst, hopen]
    rw [if_neg hne]
    split
    · constructor
      · exact exists_cons_append _ _ _ (retryLoop_effs_head _ _ _ _ rfl)
      · intro w hw hoack
        rcases List.mem_append.mp hw with h | h
        · have h2 := retryLoop_effs_oack _ _ _ _ w h hoack
          exact h2
        · rw [abort_effs_no_oack _ _ w h] at hoack
          cases hoack
    · constructor
      · exact retryLoop_effs_head _ _ _ _ rfl
      · intro w hw hoack
        have h2 := retryLoop_effs_oack _ _ _ _ w hw hoack
        exact h2

theorem c4_witness :
    ∃ t, (receiver.sendOptions (handleWRQ 1 2 none "octet"
        (some [("blksize", "1024"), ("tsize", "0")]) 5) []).effs =
      Effect.send 1 2 (Wire.oackPkt [("blksize", "1024")]) :: t :=
  ((c4_oack_exactly_accepted (handleWRQ 1 2 none "octet"
      (some [("blksize", "1024"), ("tsize", "0")]) 5)
      [("blksize", "1024"), ("tsize", "0")] [] rfl rfl).2.2 (by decide)).1

/-- `abort` does not change `tid`. -/
theorem abort_st_tid (r : receiver) (e : GoErr) : (r.abort e).1.tid = r.tid := by
  unfold receiver.abort
  split
  · rfl
  · rfl

/-- Once `tid` is non-zero, the read loop never changes it: every accepted
datagram's source port already equals `tid`. -/
theorem readLoop_tid_preserved (r : receiver) (evs : List NetEvent)
    (htid : r.tid ≠ 0) : (r.readLoop evs).st.tid = r.tid := by
  induction evs generalizing r with
  | nil => rfl
  | cons e rest ih =>
    cases e with
    | timeout => rfl
    | dgram ip port d =>
      by_cases hc : ip ≠ r.peerIP ∨ (r.tid ≠ 0 ∧ port ≠ r.tid)
      · simp only [receiver.readLoop]
        rw [if_pos hc]
        exact ih r htid
      · have hport : port = r.tid := by
          push_neg at hc
          exact hc.2 htid
        have hne : ({ r with tid := port } : receiver).tid ≠ 0 := by
          rw [hport] at *
          exact htid
        cases d with
        | malformed =>
          simp only [receiver.readLoop]
          rw [if_neg hc]
        | data blk paylen =>
          simp only [receiver.readLoop]
          rw [if_neg hc]
          split
          · exact hport
          · exact (ih { r with tid := port } hne).trans hport
        | oack res =>
          simp only [receiver.readLoop]
          rw [if_neg hc]
          split
          · exact (ih { r with tid := port } hne).trans hport
          · cases res with
            | none => exact (abort_st_tid { r with tid := port } GoErr.oackBad).trans hport
            | some opts =>
              obtain ⟨c2, hc2⟩ := applyOackOpts_st { r with tid := port } opts
              have h3 : (receiver.applyOackOpts { r with tid := port } opts).tid = port := by
                rw [hc2]
              exact h3.trans hport
        | perror code m =>
          simp only [receiver.readLoop]
          rw [if_neg hc]
          exact hport
        | other =>
          simp only [receiver.readLoop]
          rw [if_neg hc]
          exact (ih { r with tid := port } hne).trans hport

/-- C6 (amended): while `tid` is unset (zero), the source filter tests only the
peer IP — a datagram from any port of the peer IP passes — and `tid` is
locked to the source port of the first datagram from the peer IP that parses
as a well-formed packet, even when the state machine does not accept that
packet (for example a DATA block carrying an unexpected block number), not
only at the first accepted reply. -/
theorem c6_amended (r : receiver) (ip port : Nat) (d : Dgram) (rest : List NetEvent)
    (htid : r.tid = 0) (hport : port ≠ 0) (hip : ip = r.peerIP)
    (hd : d ≠ Dgram.malformed) :
    (∀ q : Nat, ¬ (ip ≠ r.peerIP ∨ (r.tid ≠ 0 ∧ q ≠ r.tid))) ∧
    (r.readLoop (NetEvent.dgram ip port d :: rest)).st.tid = port := by
  have hfilter : ∀ q : Nat, ¬ (ip ≠ r.peerIP ∨ (r.tid ≠ 0 ∧ q ≠ r.tid)) := by
    intro q
    rintro (h | ⟨h1, h2⟩)
    · exact h hip
    · exact h1 htid
  refine ⟨hfilter, ?_⟩
  have hne : ({ r with tid := port } : receiver).tid ≠ 0 := hport
  cases d with
  | malformed => exact absurd rfl hd
  | data blk paylen =>
    simp only [receiver.readLoop]
    rw [if_neg (hfilter port)]
    split
    · rfl
    · exact readLoop_tid_preserved { r with tid := port } rest hne
  | oack res =>
    simp only [receiver.readLoop]
    rw [if_neg (hfilter port)]
    split
    · exact readLoop_tid_preserved { r with tid := port } rest hne
    · cases res with
      | none => exact abort_st_tid { r with tid := port } GoErr.oackBad
      | some opts =>
        obtain ⟨c2, hc2⟩ := applyOackOpts_st { r with tid := port } opts
        have h3 : (receiver.applyOackOpts { r with tid := port } opts).tid = port := by
          rw [hc2]
        exact h3
  | perror code m =>
    simp only [receiver.readLoop]
    rw [if_neg (hfilter port)]
  | other =>
    simp only [receiver.readLoop]
    rw [if_neg (hfilter port)]
    exact readLoop_tid_preserved { r with tid := port } rest hne

theorem c6_amended_witness :
    (receiver.readLoop { handleWRQ 5 700 none "octet" none 3 with block := 1 }
      [NetEvent.dgram 5 7777 (Dgram.data 9 0)]).st.tid = 7777 :=
  (c6_amended { handleWRQ 5 700 none "octet" none 3 with block := 1 }
    5 7777 (Dgram.data 9 0) [] rfl (by decide) rfl (by decide)).2

/-- When no incoming datagram is an OACK, the read loop emits no effect,
changes nothing in the state but `tid`, and leaves a suffix of the traffic. -/
theorem readLoop_noOack (r : receiver) (evs : List NetEvent)
    (h : ∀ e ∈ evs, isOackEv e = false) :
    (r.readLoop evs).effs = [] ∧
    (r.readLoop evs).st = { r with tid := (r.readLoop evs).st.tid } ∧
    (r.readLoop evs).rest ⊆ evs := by
  induction evs generalizing r with
  | nil => exact ⟨rfl, rfl, List.Subset.refl []⟩
  | cons e rest ih =>
    have hrest : ∀ x ∈ rest, isOackEv x = false :=
      fun x hx => h x (List.mem_cons_of_mem e hx)
    cases e with
    | timeout => exact ⟨rfl, rfl, List.subset_cons_self NetEvent.timeout rest⟩
    | dgram ip port d =>
      have hd : isOackEv (NetEvent.dgram ip port d) = false :=
        h _ (List.mem_cons_self _ _)
      by_cases hc : ip ≠ r.peerIP ∨ (r.tid ≠ 0 ∧ port ≠ r.tid)
      · simp only [receiver.readLoop]
        rw [if_pos hc]
        obtain ⟨h1, h2, h3⟩ := ih r hrest
        exact ⟨h1, h2, h3.trans (List.subset_cons_self _ rest)⟩
      · cases d with
        | malformed =>
          simp only [receiver.readLoop]
          rw [if_neg hc]
          exact ⟨rfl, rfl, List.subset_cons_self _ rest⟩
        | data blk paylen =>
          simp only [receiver.readLoop]
          rw [if_neg hc]
          split
          · exact ⟨rfl, rfl, List.subset_cons_self _ rest⟩
          · obtain ⟨h1, h2, h3⟩ := ih { r with tid := port } hrest
            exact ⟨h1, h2, h3.trans (List.subset_cons_self _ rest)⟩
        | oack res => exact absurd hd (by simp [isOackEv])
        | perror code m =>
          simp only [receiver.readLoop]
          rw [if_neg hc]
          exact ⟨rfl, rfl, List.subset_cons_self _ rest⟩
        | other =>
          simp only [receiver.readLoop]
          rw [if_neg hc]
          obtain ⟨h1, h2, h3⟩ := ih { r with tid := port } hrest
          exact ⟨h1, h2, h3.trans (List.subset_cons_self _ rest)⟩

/-- When no incoming datagram is an OACK and the socket is open, one receive
attempt emits exactly the transmission of the outgoing datagram, changes
nothing in the state but `tid`, and leaves a suffix of the traffic. -/
theorem receiveDatagram_noOack (r : receiver) (out : Wire) (evs : List NetEvent)
    (hopen : r.connOpen = true) (h : ∀ e ∈ evs, isOackEv e = false) :
    (r.receiveDatagram out evs).effs = [Effect.send r.peerIP r.peerPort out] ∧
    (r.receiveDatagram out evs).st =
      { r with tid := (r.receiveDatagram out evs).st.tid } ∧
    (r.receiveDatagram out evs).rest ⊆ evs := by
  obtain ⟨h1, h2, h3⟩ := readLoop_noOack r evs h
  unfold receiver.receiveDatagram
  rw [if_pos hopen]
  refine ⟨?_, h2, h3⟩
  show Effect.send r.peerIP r.peerPort out :: (r.readLoop evs).effs =
    [Effect.send r.peerIP r.peerPort out]
  rw [h1]

/-- When no incoming datagram is an OACK, every effect of the dallying loop is
a retransmission of the final ACK, there are at most `fuel` of them, and on a
fully silent network the loop stops after one send without reporting the
dallying failure. -/
theorem dallyLoop_noOack (fuel : Nat) (r : receiver) (evs : List NetEvent)
    (hopen : r.connOpen = true) (h : ∀ e ∈ evs, isOackEv e = false) :
    (∀ w ∈ (receiver.dallyLoop fuel r evs).effs,
      w = Effect.send r.peerIP r.peerPort (Wire.ackPkt r.sendOp r.sendBlk)) ∧
    (receiver.dallyLoop fuel r evs).effs.length ≤ fuel ∧
    (1 ≤ fuel → (∀ e ∈ evs, e = NetEvent.timeout) →
      (receiver.dallyLoop fuel r evs).failed = false ∧
      (receiver.dallyLoop fuel r evs).effs.length = 1) := by
  induction fuel generalizing r evs with
  | zero =>
    refine ⟨fun w hw => absurd hw (List.not_mem_nil w), Nat.le_refl 0, ?_⟩
    intro h1
    exact absurd h1 (by omega)
  | succ f ih =>
    obtain ⟨he, hst, hsub⟩ :=
      receiveDatagram_noOack r (Wire.ackPkt r.sendOp r.sendBlk) evs hopen h
    simp only [receiver.dallyLoop]
    split
    · dsimp only
      refine ⟨?_, ?_, ?_⟩
      · intro w hw
        rw [he] at hw
        rcases List.mem_singleton.mp hw with rfl
        rfl
      · rw [he]
        simp
      · intro _ _
        refine ⟨rfl, ?_⟩
        rw [he]
        rfl
    · rename_i heq
      have hopen2 : (r.receiveDatagram (Wire.ackPkt r.sendOp r.sendBlk) evs).st.connOpen
          = true := by
        rw [hst]
        exact hopen
      have h2 : ∀ e ∈ (r.receiveDatagram (Wire.ackPkt r.sendOp r.sendBlk) evs).rest,
          isOackEv e = false := fun e hee => h e (hsub hee)
      have IH := ih _ _ hopen2 h2
      dsimp only
      refine ⟨?_, ?_, ?_⟩
      · intro w hw
        rcases List.mem_append.mp hw with h3 | h3
        · rw [he] at h3
          rcases List.mem_singleton.mp h3 with rfl
          rfl
        · have h4 := IH.1 w h3
          rw [hst] at h4
          exact h4
      · rw [List.length_append, he]
        have h5 := IH.2.1
        simp only [List.length_singleton]
        omega
      · intro hf htimeout
        have hq := receiveDatagram_allTimeout r (Wire.ackPkt r.sendOp r.sendBlk)
          evs hopen htimeout
        rw [hq] at heq
        cases heq

/-- C9: entering termination with `dally` set (and no incoming OACK traffic),
the receiver performs at most three receive attempts, each transmitting the
final ACK for the last block to the peer; the socket is closed exactly once;
and if nothing arrives within the timeout on the first of the attempts (a
fully silent network), termination completes silently, returning success
after the single final ACK. -/
theorem c9_dally_termination (r : receiver) (evs : List NetEvent)
    (hdally : r.dally = true) (hnil : r.connNil = false) (hopen : r.connOpen = true)
    (hno : ∀ e ∈ evs, isOackEv e = false) :
    (∀ w ∈ (r.terminate evs).effs, w = Effect.closeConn ∨
      w = Effect.send r.peerIP r.peerPort (Wire.ackPkt r.sendOp r.block)) ∧
    (r.terminate evs).effs.countP isAckSend ≤ 3 ∧
    countClose (r.terminate evs).effs = 1 ∧
    ((∀ e ∈ evs, e = NetEvent.timeout) →
      (r.terminate evs).err = none ∧
      (r.terminate evs).effs.countP isAckSend = 1) := by
  have hD := dallyLoop_noOack 3 { r with sendBlk := r.block } evs hopen hno
  obtain ⟨hall, hlen, hto⟩ := hD
  have hterm : r.terminate evs =
      ⟨{ (receiver.dallyLoop 3 { r with sendBlk := r.block } evs).st with
         connOpen := false },
       if (receiver.dallyLoop 3 { r with sendBlk := r.block } evs).failed then
         some GoErr.dallyFail else none,
       (receiver.dallyLoop 3 { r with sendBlk := r.block } evs).effs ++
         [Effect.closeConn],
       (receiver.dallyLoop 3 { r with sendBlk := r.block } evs).rest⟩ := by
    simp only [receiver.terminate, hnil, hdally, Bool.false_eq_true, if_false, if_true]
  rw [hterm]
  dsimp only
  refine ⟨?_, ?_, ?_, ?_⟩
  · intro w hw
    rcases List.mem_append.mp hw with h1 | h1
    · right
      exact hall w h1
    · left
      exact List.mem_singleton.mp h1
  · rw [List.countP_append]
    have h2 := List.countP_le_length (l := (receiver.dallyLoop 3
      { r with sendBlk := r.block } evs).effs) (p := isAckSend)
    have h3 : ([Effect.closeConn] : List Effect).countP isAckSend = 0 := rfl
    omega
  · rw [countClose_append]
    have h4 : countClose (receiver.dallyLoop 3 { r with sendBlk := r.block } evs).effs
        = 0 := by
      rw [countClose, List.countP_eq_zero]
      intro a ha
      rw [hall a ha]
      simp
    rw [h4]
    rfl
  · intro htime
    obtain ⟨hf, hl1⟩ := hto (by omega) htime
    constructor
    · rw [hf]
      rfl
    · rw [List.countP_append]
      have h5 : (receiver.dallyLoop 3 { r with sendBlk := r.block } evs).effs.countP
          isAckSend = 1 := by
        rw [List.countP_eq_length.mpr, hl1]
        intro a ha
        rw [hall a ha]
        rfl
      rw [h5]
      rfl

theorem c9_witness :
    (({ handleWRQ 1 2 none "octet" none 5 with dally := true, tid := 9, block := 1 }
      : receiver).terminate [NetEvent.timeout]).err = none ∧
    countClose (({ handleWRQ 1 2 none "octet" none 5 with
        dally := true, tid := 9, block := 1 }
      : receiver).terminate [NetEvent.timeout]).effs = 1 := by
  have h := c9_dally_termination
    { handleWRQ 1 2 none "octet" none 5 with dally := true, tid := 9, block := 1 }
    [NetEvent.timeout] rfl rfl rfl (by decide)
  exact ⟨(h.2.2.2 (by decide)).1, h.2.2.1⟩

/-- When nothing survives the option filter, the filtering loop leaves the
state untouched (in particular the receive buffer keeps its default size). -/
theorem filterOpts_st_empty (r : receiver) (l : Opts)
    (hf : (receiver.filterOpts r l).2 = []) : (receiver.filterOpts r l).1 = r := by
  induction l generalizing r with
  | nil => rfl
  | cons p rest ih =>
    obtain ⟨name, value⟩ := p
    by_cases hn : name = "blksize"
    · subst hn
      simp only [receiver.filterOpts, if_pos rfl] at hf ⊢
      cases hsb : receiver.setBlockSize r value with
      | ok r1 =>
        rw [hsb] at hf
        simp at hf
      | error e =>
        rw [hsb] at hf
        exact ih r hf
    · simp only [receiver.filterOpts, if_neg hn] at hf ⊢
      exact ih r hf

/-- C10: for a WRQ whose (non-empty) option map has no surviving option after
acceptance, the receiver sends no OACK and falls back to the option-less
handshake: `sendOptions` is a no-op (no transmission, no error, all options
deleted), the first transmission of the session is an ACK with block number
0, and a subsequent DATA block 1 completes the round (shown on a concrete
session, whose whole effect trace is that single ACK). -/
theorem c10_no_oack_fallback (ip port : Nat) (lip : Option Nat) (mode : String)
    (retries : Nat) (l : Opts) (hl : l ≠ []) (hf : l.filter acceptOpt = []) :
    (∀ evs, receiver.sendOptions (handleWRQ ip port lip mode (some l) retries) evs =
      ⟨{ handleWRQ ip port lip mode (some l) retries with opts := some [] },
       none, [], evs⟩) ∧
    (∀ evs fuel, ∃ t, (receiver.WriteTo sinkOk (fuel + 1)
        (handleWRQ ip port lip mode (some l) retries) evs).effs =
      Effect.send ip port (Wire.ackPkt opACK 0) :: t) ∧
    ((receiver.WriteTo sinkOk 2 (handleWRQ 1 2 none "octet" (some [("tsize", "0")]) 5)
        [NetEvent.dgram 1 9 (Dgram.data 1 3)]).err = none ∧
     (receiver.WriteTo sinkOk 2 (handleWRQ 1 2 none "octet" (some [("tsize", "0")]) 5)
        [NetEvent.dgram 1 9 (Dgram.data 1 3)]).n = 3 ∧
     (receiver.WriteTo sinkOk 2 (handleWRQ 1 2 none "octet" (some [("tsize", "0")]) 5)
        [NetEvent.dgram 1 9 (Dgram.data 1 3)]).effs =
       [Effect.send 1 2 (Wire.ackPkt opACK 0)]) := by
  have hopts : (handleWRQ ip port lip mode (some l) retries).opts = some l := rfl
  have hk := filterOpts_kept (handleWRQ ip port lip mode (some l) retries) l
  have hempty : (receiver.filterOpts (handleWRQ ip port lip mode (some l) retries) l).2
      = [] := by rw [hk, hf]
  have hst := filterOpts_st_empty _ _ hempty
  have hso : ∀ evs, receiver.sendOptions (handleWRQ ip port lip mode (some l) retries)
      evs = ⟨{ handleWRQ ip port lip mode (some l) retries with opts := some [] },
       none, [], evs⟩ := by
    intro evs
    simp only [receiver.sendOptions, hopts, Option.getD_some, hempty, hst, if_true]
  refine ⟨hso, ?_, by decide⟩
  intro evs fuel
  have hso2 := hso evs
  simp only [handleWRQ] at hso2 ⊢
  simp only [receiver.WriteTo, hso2, List.nil_append]
  simp only [receiver.writeToLoop, receiver.receiveWithRetry, lt_self_iff_false,
    if_false]
  split
  · exact exists_cons_append _ _ _ (retryLoop_effs_head _ _ _ _ rfl)
  · exact exists_cons_append _ _ _ (retryLoop_effs_head _ _ _ _ rfl)

theorem c10_witness :
    ∃ t, (receiver.WriteTo sinkOk 1 (handleWRQ 7 8 none "octet"
        (some [("tsize", "33")]) 5) [NetEvent.timeout]).effs =
      Effect.send 7 8 (Wire.ackPkt opACK 0) :: t :=
  (c10_no_oack_fallback 7 8 none "octet" 5 [("tsize", "33")]
    (by decide) (by decide)).2.1 [NetEvent.timeout] 0
